import Mathlib

/-!
Verification of the argon-proxy CORS proxy server.

Shallow embedding of the request-handling core of `main.go` (a CORS proxy):
target resolution, URL normalisation, outbound request construction,
header copying, CORS annotation, preflight handling and error mapping.

Go strings are modelled as Lean `String`s whose characters stand for the
bytes of the Go string (percent-decoding therefore produces characters with
code points below 256).  The Go standard-library string functions used by
the source (`strings.Index`, `strings.Split`, `strings.HasPrefix`,
`strings.Contains`, `strings.EqualFold`, `strings.ToLower`,
`strings.TrimSpace`, `strings.TrimPrefix`, `url.QueryUnescape`) are embedded
below.  `strings.EqualFold` and `strings.ToLower` are modelled by ASCII case
folding: HTTP header names accepted by Go's server are ASCII tokens, and all
folding in the source is applied to header names.  Every `strings.Split`
call site in the source uses a one-character separator, so the embedding
takes a `Char` separator.
-/

namespace ArgonProxy

/-- ASCII lower-casing of one character (model of Go case folding on the
ASCII range). -/
def toLowerChar (c : Char) : Char :=
  if 'A' ≤ c ∧ c ≤ 'Z' then Char.ofNat (c.toNat + 32) else c

/-- Model of `strings.ToLower`, restricted to ASCII folding. -/
def goToLower (s : String) : String :=
  String.mk (s.toList.map toLowerChar)

/-- Model of `strings.EqualFold`, restricted to ASCII folding. -/
def goEqualFold (a b : String) : Bool :=
  goToLower a == goToLower b

/-- Model of `strings.HasPrefix`. -/
def hasPrefixGo (s pre : String) : Bool :=
  pre.toList.isPrefixOf s.toList

/-- Byte-indexed substring from position `n` to the end (Go `s[n:]`). -/
def goDrop (s : String) (n : Nat) : String :=
  String.mk (s.toList.drop n)

/-- Byte-indexed substring of the first `n` bytes (Go `s[:n]`). -/
def goTake (s : String) (n : Nat) : String :=
  String.mk (s.toList.take n)

/-- Search for the first occurrence of `sub` in the suffixes of a character
list, accumulating the start index. -/
def findSubAux (sub : List Char) : List Char → Nat → Option Nat
  | [], i => if sub = [] then some i else none
  | c :: rest, i =>
    if sub.isPrefixOf (c :: rest) then some i else findSubAux sub rest (i + 1)

/-- Model of `strings.Index`: index of the first occurrence of `sub` in `s`, `none`
standing for Go's `-1`. -/
def goIndex (s sub : String) : Option Nat :=
  findSubAux sub.toList s.toList 0

/-- Model of `strings.Contains` (defined from `Index`, as in the Go library). -/
def goContains (s sub : String) : Bool :=
  (goIndex s sub).isSome

/-- Splitting a character list on a separator character, keeping empty
fields, as Go's `strings.Split` does. -/
def splitCharList (sep : Char) : List Char → List (List Char)
  | [] => [[]]
  | c :: rest =>
    if c = sep then [] :: splitCharList sep rest
    else
      match splitCharList sep rest with
      | [] => [[c]]
      | g :: gs => (c :: g) :: gs

/-- Model of `strings.Split` with a one-character separator (every `Split` call in the
source uses such a separator). -/
def goSplit (s : String) (sep : Char) : List String :=
  (splitCharList sep s.toList).map String.mk

/-- Go's `unicode.IsSpace` restricted to the ASCII range. -/
def isSpaceGo (c : Char) : Bool :=
  c = ' ' || c = '\t' || c = '\n' || c = '\x0b' || c = '\x0c' || c = '\r'

/-- Model of `strings.TrimSpace`, restricted to ASCII whitespace. -/
def goTrimSpace (s : String) : String :=
  String.mk (((s.toList.dropWhile isSpaceGo).reverse.dropWhile isSpaceGo).reverse)

/-- Model of `strings.TrimPrefix`. -/
def trimPrefixGo (s pre : String) : String :=
  if hasPrefixGo s pre then goDrop s pre.toList.length else s

/-- Hexadecimal digit test, as in `net/url`'s `ishex`. -/
def isHexGo (c : Char) : Bool :=
  ('0' ≤ c ∧ c ≤ '9') ∨ ('a' ≤ c ∧ c ≤ 'f') ∨ ('A' ≤ c ∧ c ≤ 'F')

/-- Value of a hexadecimal digit, as in `net/url`'s `unhex`. -/
def unhexGo (c : Char) : Nat :=
  if '0' ≤ c ∧ c ≤ '9' then c.toNat - '0'.toNat
  else if 'a' ≤ c ∧ c ≤ 'f' then c.toNat - 'a'.toNat + 10
  else if 'A' ≤ c ∧ c ≤ 'F' then c.toNat - 'A'.toNat + 10
  else 0

/-- Character-list core of `url.QueryUnescape`: `%XY` decodes to the byte
`16*X+Y`, `+` decodes to a space, a `%` not followed by two hex digits is an
encoding error (`none`). -/
def queryUnescapeList : List Char → Option (List Char)
  | [] => some []
  | '%' :: a :: b :: rest =>
    if isHexGo a ∧ isHexGo b then
      (queryUnescapeList rest).map (fun l => Char.ofNat (16 * unhexGo a + unhexGo b) :: l)
    else none
  | '%' :: _ :: [] => none
  | '%' :: [] => none
  | '+' :: rest => (queryUnescapeList rest).map (fun l => ' ' :: l)
  | c :: rest => (queryUnescapeList rest).map (fun l => c :: l)

/-- Model of `url.QueryUnescape`. -/
def queryUnescape (s : String) : Option String :=
  (queryUnescapeList s.toList).map String.mk

/-! ## HTTP data model

Headers are modelled as association lists from header name to the list of
values, looked up case-insensitively (Go canonicalises header keys, making
`Header.Get`/`Set`/`Add` case-insensitive). -/

/-- A header map: list of (name, values) entries. -/
abbrev Headers := List (String × List String)

/-- Case-insensitive header-name equality. -/
def keyEq (a b : String) : Bool := goEqualFold a b

/-- All values stored under a header name (Go `h[CanonicalKey(k)]`). -/
def headerGetValues : Headers → String → List String
  | [], _ => []
  | kv :: rest, k => if keyEq kv.1 k then kv.2 else headerGetValues rest k

/-- Model of `Header.Get`: first value under the name, or `""`. -/
def headerGet (hs : Headers) (k : String) : String :=
  (headerGetValues hs k).headD ""

/-- Model of `Header.Set`: replace all values under the name by the one value. -/
def headerSet (hs : Headers) (k v : String) : Headers :=
  hs.filter (fun kv => !(keyEq kv.1 k)) ++ [(k, [v])]

/-- Model of `Header.Add`: append a value under the name. -/
def headerAdd : Headers → String → String → Headers
  | [], k, v => [(k, [v])]
  | kv :: rest, k, v =>
    if keyEq kv.1 k then (kv.1, kv.2 ++ [v]) :: rest
    else kv :: headerAdd rest k v

/-- An inbound HTTP request, as the handlers see it. -/
structure Request where
  method : String
  path : String
  rawQuery : String
  headers : Headers
  remoteAddr : String
  body : String
deriving DecidableEq

/-- An HTTP response (status, headers, body). -/
structure Response where
  status : Nat
  headers : Headers
  body : String
deriving DecidableEq

/-- The start-time configuration the handlers read (flag values). -/
structure Config where
  allowedOrigin : String
  trustProxy : Bool
deriving DecidableEq

/-- Model of `http.Error`: plain-text error response with the given status. -/
def httpError (msg : String) (status : Nat) : Response :=
  { status := status
    headers := [("Content-Type", ["text/plain; charset=utf-8"]),
                ("X-Content-Type-Options", ["nosniff"])]
    body := msg ++ "\n" }

/-! ## Embedding of the handlers of `main.go` -/

/-- Embeds `parseTargetURL`: raw scan of the query string for `target=`, falling
back to the path remainder after `/proxy/`. -/
def parseTargetURL (r : Request) : String :=
  match goIndex r.rawQuery "target=" with
  | none =>
    if hasPrefixGo r.path "/proxy/" then goDrop r.path 7 else ""
  | some targetStart =>
    let targetValueEncoded := goDrop r.rawQuery (targetStart + 7)
    match goIndex targetValueEncoded "&" with
    | none => targetValueEncoded
    | some endIndex => goTake targetValueEncoded endIndex

/-- Embeds `buildFinalURL` (the inline block of `processProxyRequest` in `main.go`):
append the non-`target` query parts of the inbound raw query to the decoded
target URL. -/
def buildFinalURL (r : Request) (decodedURL : String) : String :=
  let additionalParams :=
    (goSplit r.rawQuery '&').foldl
      (fun acc part =>
        if !(hasPrefixGo part "target=") && part != "" then
          if acc == "" then part else acc ++ "&" ++ part
        else acc) ""
  if additionalParams != "" then
    if goContains decodedURL "?" then decodedURL ++ "&" ++ additionalParams
    else decodedURL ++ "?" ++ additionalParams
  else decodedURL

/-- Embeds `getClientIP`: in trust-proxy mode prefer the leftmost `X-Forwarded-For`
entry, then `X-Real-IP`; otherwise the peer address up to the first colon. -/
def getClientIP (trustProxy : Bool) (r : Request) : String :=
  if trustProxy then
    let xForwardedFor := headerGet r.headers "X-Forwarded-For"
    if xForwardedFor != "" then
      goTrimSpace ((goSplit xForwardedFor ',').headD "")
    else
      let realIP := headerGet r.headers "X-Real-IP"
      if realIP != "" then realIP
      else (goSplit r.remoteAddr ':').headD ""
  else (goSplit r.remoteAddr ':').headD ""

/-- Embeds `shouldSkipHeader`: the deny-list of headers never copied outbound. -/
def shouldSkipHeader (key : String) : Bool :=
  let lower := goToLower key
  goEqualFold key "Connection" ||
  goEqualFold key "Host" ||
  goEqualFold key "X-Forwarded-Host" ||
  goEqualFold key "X-Forwarded-Proto" ||
  goEqualFold key "Content-Length" ||
  hasPrefixGo lower "x-nginx"

/-- The header-copy loop of `copyRequestHeaders`: `Add` every value of every
non-skipped inbound header into the (empty) outbound header map. -/
def copiedHeaders (r : Request) : Headers :=
  r.headers.foldl
    (fun acc kv =>
      if shouldSkipHeader kv.1 then acc
      else kv.2.foldl (fun acc v => headerAdd acc kv.1 v) acc)
    []

/-- Embeds `copyRequestHeaders`: the copy loop followed by the conditional
`X-Real-IP` injection.  Returns the outbound header map together with the
injected value (`some` when the `Set` in the source executed). -/
def copyRequestHeaders (trustProxy : Bool) (r : Request) : Headers × Option String :=
  let copied := copiedHeaders r
  if trustProxy && headerGet r.headers "X-Forwarded-For" != "" then
    let ip := getClientIP trustProxy r
    (headerSet copied "X-Real-IP" ip, some ip)
  else (copied, none)

/-- Host derivation in `createProxyRequest`: the authority component between
`://` and the next `/` of the final URL (empty when no `://` occurs, leaving
Go's default). -/
def hostFromURL (finalURL : String) : String :=
  match goIndex finalURL "://" with
  | none => ""
  | some hostStart =>
    let hostPort := goDrop finalURL (hostStart + 3)
    match goIndex hostPort "/" with
    | none => hostPort
    | some slash => goTake hostPort slash

/-- The outbound request handed to the HTTP client. -/
structure OutboundRequest where
  method : String
  url : String
  headers : Headers
  host : String
  body : String
deriving DecidableEq

/-- Result of `client.Do`: an upstream response, or a transport error with
its message (connection, DNS or protocol failure). -/
inductive DispatchResult where
  | ok (resp : Response)
  | err (msg : String)
deriving DecidableEq

/-- Embeds `addCORSHeaders`: set the five access-control response headers. -/
def addCORSHeaders (allowedOrigin : String) (r : Request) (hs : Headers) : Headers :=
  let origin := headerGet r.headers "Origin"
  let hs :=
    if origin != "" && (allowedOrigin == "*" || allowedOrigin == origin) then
      headerSet hs "Access-Control-Allow-Origin" origin
    else
      headerSet hs "Access-Control-Allow-Origin" allowedOrigin
  let hs := headerSet hs "Access-Control-Allow-Methods"
      "GET, POST, OPTIONS, PUT, DELETE, HEAD, PATCH"
  let hs := headerSet hs "Access-Control-Allow-Headers" "*"
  let hs := headerSet hs "Access-Control-Allow-Credentials" "true"
  headerSet hs "Vary" "Origin"

/-- Embeds `handlePreflight`: CORS headers, method/headers echo handling, max-age,
then 204 with no body. -/
def handlePreflight (cfg : Config) (r : Request) : Response :=
  let hs := addCORSHeaders cfg.allowedOrigin r []
  let hs :=
    if headerGet r.headers "Access-Control-Request-Method" != "" then
      headerSet hs "Access-Control-Allow-Methods"
        "GET, POST, OPTIONS, PUT, DELETE, HEAD, PATCH"
    else hs
  let hs :=
    if headerGet r.headers "Access-Control-Request-Headers" != "" then
      headerSet hs "Access-Control-Allow-Headers"
        (headerGet r.headers "Access-Control-Request-Headers")
    else
      headerSet hs "Access-Control-Allow-Headers"
        "Content-Type, Authorization, X-Requested-With"
  let hs := headerSet hs "Access-Control-Max-Age" "86400"
  { status := 204, headers := hs, body := "" }

/-- Embeds `processProxyResponse`: CORS headers, upstream headers minus the
access-control namespace, upstream status and body. -/
def processProxyResponse (cfg : Config) (r : Request) (resp : Response) : Response :=
  let hs := addCORSHeaders cfg.allowedOrigin r []
  let hs := resp.headers.foldl
    (fun hs kv =>
      if !(hasPrefixGo (goToLower kv.1) "access-control-") then
        kv.2.foldl (fun hs v => headerAdd hs kv.1 v) hs
      else hs)
    hs
  { status := resp.status, headers := hs, body := resp.body }

/-- The text `displayUsage` writes for a given section. -/
def usageBody (sect : String) : String :=
  "CORS Proxy Usage:\n" ++
  "GET /proxy/{url} - Proxy to the specified URL\n" ++
  "GET /getconfig/{filename} - Get embedded configuration file\n" ++
  (if sect == "proxy" || sect == "all" then
    "\nProxy Examples:\n" ++
    "  - GET /proxy/https://api.example.com/data\n" ++
    "  - GET /proxy/?target=https://api.example.com/data\n"
  else "") ++
  (if sect == "config" || sect == "all" then
    "\nConfig Examples:\n" ++
    "  - GET /getconfig/nginx\n"
  else "")

/-- Embeds `displayUsage`: plain-text usage help with status 200. -/
def displayUsage (r : Request) (sect : String) : Response :=
  { status := 200
    headers := [("Content-Type", ["text/plain"])]
    body := usageBody sect }

/-- Model of `http.NotFound`'s response. -/
def notFoundResponse : Response :=
  httpError "404 page not found" 404

/-- Embeds `handleRoot`: usage text at `/`, 404 elsewhere. -/
def handleRoot (r : Request) : Response :=
  if r.path != "/" then notFoundResponse
  else displayUsage r "all"

/-- Outcome of `handleProxy`/`processProxyRequest`: the client-visible
response together with the outbound request handed to `client.Do` (`none`
when the dispatcher was never invoked). -/
structure ProxyOutcome where
  response : Response
  dispatched : Option OutboundRequest
deriving DecidableEq

/-- Embeds `processProxyRequest`: decode the target, normalise the scheme, build
the final URL, construct and dispatch the outbound request, and map each
failure to its status.  `newReqOk` stands for `http.NewRequest` succeeding
and `dispatch` for the outcome of `client.Do` — both are external to the
repository's code. -/
def processProxyRequest (cfg : Config) (newReqOk : Bool) (dispatch : DispatchResult)
    (r : Request) (rawTargetURL : String) : ProxyOutcome :=
  match queryUnescape rawTargetURL with
  | none =>
    { response := httpError "Invalid URL encoding in target" 400, dispatched := none }
  | some decoded =>
    let decodedURL :=
      if !(hasPrefixGo decoded "http://") && !(hasPrefixGo decoded "https://") then
        "https://" ++ decoded
      else decoded
    let finalURL := buildFinalURL r decodedURL
    if !newReqOk then
      { response := httpError "Error creating proxy request" 500, dispatched := none }
    else
      let out : OutboundRequest :=
        { method := r.method
          url := finalURL
          headers := (copyRequestHeaders cfg.trustProxy r).1
          host := hostFromURL finalURL
          body := r.body }
      match dispatch with
      | .err msg =>
        { response := httpError ("Error proxying request: " ++ msg) 502
          dispatched := some out }
      | .ok resp =>
        { response := processProxyResponse cfg r resp, dispatched := some out }

/-- Embeds `handleProxy`: preflight for OPTIONS, usage when no target resolves,
otherwise the proxy pipeline. -/
def handleProxy (cfg : Config) (newReqOk : Bool) (dispatch : DispatchResult)
    (r : Request) : ProxyOutcome :=
  if r.method == "OPTIONS" then
    { response := handlePreflight cfg r, dispatched := none }
  else
    let targetURL := parseTargetURL r
    if targetURL == "" then
      { response := displayUsage r "proxy", dispatched := none }
    else
      processProxyRequest cfg newReqOk dispatch r targetURL

/-- The embedded sample-config filesystem, as a mapping from file name
(relative to `getconfig/`) to content. -/
abbrev ConfigFS := List (String × String)

/-- Scan a reversed character list for `path.Ext`: stop at a slash, return
the suffix from the last dot of the last path element. -/
def pathExtAux : List Char → List Char → String
  | [], _ => ""
  | c :: rest, acc =>
    if c = '/' then ""
    else if c = '.' then String.mk ('.' :: acc)
    else pathExtAux rest (c :: acc)

/-- Model of `path.Ext`: the file-name extension including the dot, or `""`. -/
def goPathExt (p : String) : String :=
  pathExtAux p.toList.reverse []

/-- Embeds `getContentType`: content type from the file extension. -/
def getContentType (filename : String) : String :=
  let ext := goPathExt filename
  if ext == ".json" then "application/json"
  else if ext == ".xml" then "application/xml"
  else if ext == ".yaml" || ext == ".yml" then "application/yaml"
  else if ext == ".conf" then "text/plain"
  else "text/plain"

/-- Embeds `listConfigFiles`: plain-text listing of the embedded files. -/
def listConfigFiles (fsys : ConfigFS) : Response :=
  { status := 200
    headers := [("Content-Type", ["text/plain"])]
    body := "Available configuration files:\n\n" ++
      String.join (fsys.map (fun f => "- " ++ f.1 ++ "\n")) ++
      "\nUsage: GET /getconfig/{filename}\n" }

/-- The file name `handleConfigFiles` extracts from the path. -/
def configFilename (r : Request) : String :=
  trimPrefixGo r.path "/getconfig/"

/-- Embeds `handleConfigFiles`: listing when no name given, 404 when the embedded
read fails, otherwise the file with CORS headers and a guessed content
type.  The lookup abstracts `path.Join` + `embed.FS.ReadFile`. -/
def handleConfigFiles (cfg : Config) (fsys : ConfigFS) (r : Request) : Response :=
  let filename := configFilename r
  if filename == "" then listConfigFiles fsys
  else
    match fsys.lookup filename with
    | none => httpError "Configuration file not found" 404
    | some content =>
      let hs := addCORSHeaders cfg.allowedOrigin r []
      let hs := headerSet hs "Content-Type" (getContentType filename)
      { status := 200, headers := hs, body := content }

/-! ## Specification-side definitions

These definitions follow the wording of the specification's claims; the
theorems compare them with the embedded code. -/

/-- Join strings with ampersands, as the claims describe re-attached query
parameters. -/
def joinAmp : List String → String
  | [] => ""
  | [x] => x
  | x :: xs => x ++ "&" ++ joinAmp xs

/-- The remaining query parameters of a raw query string: the parts split
on ampersands, minus empty parts and parts starting with `target=`. -/
def specRemainingParams (rawQuery : String) : List String :=
  (goSplit rawQuery '&').filter (fun p => p != "" && !(hasPrefixGo p "target="))

/-- Scheme normalisation as the claims describe it: prepend `https://` when
the decoded string lacks an `http://` or `https://` prefix. -/
def specNormalizedTarget (decoded : String) : String :=
  if hasPrefixGo decoded "http://" || hasPrefixGo decoded "https://" then decoded
  else "https://" ++ decoded

/-- The upstream URL the claims say is dispatched for raw target `T` and
inbound raw query `rawQuery` (`none` when `T` does not percent-decode). -/
def specDispatchedURL (rawQuery T : String) : Option String :=
  (queryUnescape T).map fun dec =>
    let D := specNormalizedTarget dec
    let ps := specRemainingParams rawQuery
    if ps = [] then D
    else D ++ (if goContains D "?" then "&" else "?") ++ joinAmp ps

/-- Target resolution as the claim words it: query extraction requires a
parameter literally named `target` in the raw query string. -/
def specResolveTarget (r : Request) : String :=
  if (goSplit r.rawQuery '&').any (fun p => hasPrefixGo p "target=") then
    match goIndex r.rawQuery "target=" with
    | none => ""
    | some targetStart =>
      let after := goDrop r.rawQuery (targetStart + 7)
      match goIndex after "&" with
      | none => after
      | some endIndex => goTake after endIndex
  else if hasPrefixGo r.path "/proxy/" then goDrop r.path 7
  else ""

/-- Target resolution amended to the code's raw scan: query extraction
requires only that the substring `target=` occur in the raw query string. -/
def amendedResolveTarget (r : Request) : String :=
  if goContains r.rawQuery "target=" then
    match goIndex r.rawQuery "target=" with
    | none => ""
    | some targetStart =>
      let after := goDrop r.rawQuery (targetStart + 7)
      match goIndex after "&" with
      | none => after
      | some endIndex => goTake after endIndex
  else if hasPrefixGo r.path "/proxy/" then goDrop r.path 7
  else ""

/-- Allowed-origin resolution as the claim words it: echo the Origin header
whenever the configured value is the wildcard or equals it. -/
def specAllowOriginClaim (allowed origin : String) : String :=
  if allowed = "*" ∨ allowed = origin then origin else allowed

/-- Allowed-origin resolution amended to the code: echo the Origin header
only when it is non-empty and the configured value is the wildcard or
equals it. -/
def specAllowOriginAmended (allowed origin : String) : String :=
  if origin ≠ "" ∧ (allowed = "*" ∨ allowed = origin) then origin else allowed

/-- A header map carries the five always-set CORS headers: the four
access-control headers are present and `Vary` carries the value `Origin`. -/
def hasCORSHeaders (hs : Headers) : Bool :=
  !(headerGetValues hs "Access-Control-Allow-Origin").isEmpty &&
  !(headerGetValues hs "Access-Control-Allow-Methods").isEmpty &&
  !(headerGetValues hs "Access-Control-Allow-Headers").isEmpty &&
  !(headerGetValues hs "Access-Control-Allow-Credentials").isEmpty &&
  (headerGetValues hs "Vary").contains "Origin"

/-- The deny-set of the header-copy policy, as the claims list it. -/
def inDenySet (k : String) : Bool :=
  keyEq k "Connection" || keyEq k "Host" || keyEq k "X-Forwarded-Host" ||
  keyEq k "X-Forwarded-Proto" || keyEq k "Content-Length" ||
  hasPrefixGo (goToLower k) "x-nginx"

/-- Peer address up to the first colon, as the claims describe the fallback
client IP. -/
def remoteIPBeforeColon (s : String) : String :=
  String.mk (s.toList.takeWhile (fun c => !(c == ':')))

/-- Leftmost comma-separated element of an `X-Forwarded-For` value with
surrounding whitespace trimmed, as the claims describe the injected IP. -/
def leftmostForwardedIP (xff : String) : String :=
  goTrimSpace (String.mk (xff.toList.takeWhile (fun c => !(c == ','))))

/-! ## Concrete inputs used by counterexamples and witnesses -/

/-- A request whose raw query contains `target=` only inside the parameter
name `xtarget`. -/
def reqScan : Request :=
  { method := "GET", path := "/proxy", rawQuery := "xtarget=foo",
    headers := [], remoteAddr := "", body := "" }

/-- A plain request to the root path with no Origin header. -/
def reqRoot : Request :=
  { method := "GET", path := "/", rawQuery := "",
    headers := [], remoteAddr := "", body := "" }

/-- A preflight request asking for an uncommon method. -/
def reqPurge : Request :=
  { method := "OPTIONS", path := "/proxy", rawQuery := "",
    headers := [("Access-Control-Request-Method", ["PURGE"])],
    remoteAddr := "", body := "" }

/-- A preflight request stating both requested method and headers. -/
def reqPreflightFull : Request :=
  { method := "OPTIONS", path := "/proxy", rawQuery := "",
    headers := [("Access-Control-Request-Method", ["PUT"]),
                ("Access-Control-Request-Headers", ["X-Custom"])],
    remoteAddr := "", body := "" }

/-- A request carrying forwarded-IP headers from the client. -/
def reqForwarded : Request :=
  { method := "GET", path := "/proxy", rawQuery := "target=http%3A%2F%2Fx",
    headers := [("X-Forwarded-For", ["5.6.7.8"]), ("X-Real-IP", ["1.2.3.4"])],
    remoteAddr := "9.9.9.9:80", body := "" }

/-- A proxy request with a target and one extra query parameter. -/
def reqTargetExtra : Request :=
  { method := "GET", path := "/proxy", rawQuery := "target=http%3A%2F%2Fx&extra=1",
    headers := [], remoteAddr := "", body := "" }

/-- A proxy request whose target value percent-decodes to nothing valid. -/
def reqBadEncoding : Request :=
  { method := "GET", path := "/proxy", rawQuery := "target=%zz",
    headers := [], remoteAddr := "", body := "" }

/-- A proxy request with no resolvable target. -/
def reqNoTarget : Request :=
  { method := "GET", path := "/proxy", rawQuery := "",
    headers := [], remoteAddr := "", body := "" }

/-- A request naming an embedded config file. -/
def reqConfig : Request :=
  { method := "GET", path := "/getconfig/nginx.conf", rawQuery := "",
    headers := [], remoteAddr := "", body := "" }

/-- A one-file embedded filesystem for the config-route witnesses. -/
def fsNginx : ConfigFS := [("nginx.conf", "sample")]

/-- The default configuration (wildcard origin, trust-proxy off). -/
def cfgDefault : Config := { allowedOrigin := "*", trustProxy := false }

/-! ## Lemmas about the header map -/

theorem keyEq_lower {a b : String} : keyEq a b = true ↔ goToLower a = goToLower b := by
  simp [keyEq, goEqualFold]

theorem keyEq_false_lower {a b : String} :
    keyEq a b = false ↔ goToLower a ≠ goToLower b := by
  simp [keyEq, goEqualFold]

theorem headerGetValues_set (hs : Headers) (k v k' : String) :
    headerGetValues (headerSet hs k v) k' =
      if keyEq k k' then [v] else headerGetValues hs k' := by
  induction hs with
  | nil =>
    by_cases h : keyEq k k' <;> simp [headerSet, headerGetValues, h]
  | cons kv rest ih =>
    by_cases hkv : keyEq kv.1 k
    · have h2 : headerSet (kv :: rest) k v = headerSet rest k v := by
        simp [headerSet, hkv]
      rw [h2, ih]
      by_cases hkk : keyEq k k'
      · simp [hkk]
      · have hkv' : keyEq kv.1 k' = false := by
          rw [keyEq_false_lower]
          rw [keyEq_lower] at hkv
          rw [Bool.not_eq_true] at hkk
          rw [keyEq_false_lower] at hkk
          rw [hkv]; exact hkk
        simp [hkk, headerGetValues, hkv']
    · have h2 : headerSet (kv :: rest) k v = kv :: headerSet rest k v := by
        simp [headerSet, hkv]
      rw [h2]
      by_cases hkv' : keyEq kv.1 k'
      · have hkk : keyEq k k' = false := by
          rw [keyEq_false_lower]
          rw [keyEq_lower] at hkv'
          rw [Bool.not_eq_true, keyEq_false_lower] at hkv
          intro h; exact hkv (hkv'.trans h.symm)
        simp [headerGetValues, hkv', hkk]
      · simp [headerGetValues, hkv', ih]

theorem headerGetValues_add (hs : Headers) (k v k' : String) :
    headerGetValues (headerAdd hs k v) k' =
      if keyEq k k' then headerGetValues hs k' ++ [v]
      else headerGetValues hs k' := by
  induction hs with
  | nil =>
    by_cases h : keyEq k k' <;> simp [headerAdd, headerGetValues, h]
  | cons kv rest ih =>
    by_cases hkv : keyEq kv.1 k
    · by_cases hkv' : keyEq kv.1 k'
      · have hkk : keyEq k k' = true := by
          rw [keyEq_lower] at hkv hkv' ⊢
          exact hkv.symm.trans hkv'
        simp [headerAdd, hkv, headerGetValues, hkv', hkk]
      · have hkk : keyEq k k' = false := by
          rw [keyEq_lower] at hkv
          rw [Bool.not_eq_true, keyEq_false_lower] at hkv'
          rw [keyEq_false_lower]
          intro h; exact hkv' (hkv.symm ▸ h)
        simp [headerAdd, hkv, headerGetValues, hkv', hkk]
    · by_cases hkv' : keyEq kv.1 k'
      · have hkk : keyEq k k' = false := by
          rw [keyEq_lower] at hkv'
          rw [Bool.not_eq_true, keyEq_false_lower] at hkv
          rw [keyEq_false_lower]
          intro h; exact hkv ((h.trans hkv'.symm).symm)
        simp [headerAdd, hkv, headerGetValues, hkv', hkk]
      · simp [headerAdd, hkv, headerGetValues, hkv', ih]

/-- Adding a header value never empties another name's value list. -/
theorem headerGetValues_add_ne_nil (hs : Headers) (k v k' : String)
    (h : headerGetValues hs k' ≠ []) :
    headerGetValues (headerAdd hs k v) k' ≠ [] := by
  rw [headerGetValues_add]
  by_cases hk : keyEq k k' <;> simp [hk, h]

/-- Adding a header value preserves membership of previous values. -/
theorem mem_headerGetValues_add (hs : Headers) (k v k' w : String)
    (h : w ∈ headerGetValues hs k') :
    w ∈ headerGetValues (headerAdd hs k v) k' := by
  rw [headerGetValues_add]
  by_cases hk : keyEq k k' <;> simp [hk, h]

/-- Folding value additions under one name leaves other names unchanged. -/
theorem headerGetValues_foldAdd_other (vs : List String) (k0 : String)
    (hs : Headers) (k : String) (h : keyEq k0 k = false) :
    headerGetValues (vs.foldl (fun acc v => headerAdd acc k0 v) hs) k =
      headerGetValues hs k := by
  induction vs generalizing hs with
  | nil => rfl
  | cons v vs ih =>
    simp only [List.foldl_cons]
    rw [ih, headerGetValues_add, h]
    simp

/-- The first value a fold of additions places under its own name survives
to the end of the fold. -/
theorem mem_headerGetValues_foldAdd (vs : List String) (k0 : String)
    (hs : Headers) (w : String) (h : w ∈ headerGetValues hs k0) :
    w ∈ headerGetValues (vs.foldl (fun acc v => headerAdd acc k0 v) hs) k0 := by
  induction vs generalizing hs with
  | nil => exact h
  | cons v vs ih =>
    simp only [List.foldl_cons]
    exact ih _ (mem_headerGetValues_add _ _ _ _ _ h)

/-- Every value in the folded list is present in the result of the fold. -/
theorem mem_headerGetValues_foldAdd_self (vs : List String) (k0 : String)
    (hs : Headers) (w : String) (h : w ∈ vs) :
    w ∈ headerGetValues (vs.foldl (fun acc v => headerAdd acc k0 v) hs) k0 := by
  induction vs generalizing hs with
  | nil => cases h
  | cons v vs ih =>
    simp only [List.foldl_cons]
    rcases List.mem_cons.mp h with rfl | hmem
    · apply mem_headerGetValues_foldAdd
      rw [headerGetValues_add]
      simp [keyEq_lower]
    · exact ih _ hmem

/-- Case folding respects `keyEq`-equivalent names in `shouldSkipHeader`. -/
theorem shouldSkipHeader_congr (a b : String) (h : goToLower a = goToLower b) :
    shouldSkipHeader a = shouldSkipHeader b := by
  simp only [shouldSkipHeader, goEqualFold, h]

/-- The deny-set predicate of the claims is the code's skip predicate. -/
theorem inDenySet_eq_shouldSkipHeader (k : String) :
    inDenySet k = shouldSkipHeader k := rfl

/-! ## Lemmas about splitting and joining -/

theorem splitCharList_ne_nil (sep : Char) (l : List Char) :
    splitCharList sep l ≠ [] := by
  induction l with
  | nil => simp [splitCharList]
  | cons c rest ih =>
    by_cases h : c = sep
    · simp [splitCharList, h]
    · simp only [splitCharList, if_neg h]
      cases hsp : splitCharList sep rest with
      | nil => simp
      | cons g gs => simp

/-- The head of a character-split is the longest separator-free prefix. -/
theorem splitCharList_head (sep : Char) (l : List Char) :
    (splitCharList sep l).headD [] = l.takeWhile (fun c => !(c == sep)) := by
  induction l with
  | nil => simp [splitCharList]
  | cons c rest ih =>
    by_cases h : c = sep
    · simp [splitCharList, h, List.takeWhile]
    · simp only [splitCharList, if_neg h]
      cases hsp : splitCharList sep rest with
      | nil => exact absurd hsp (splitCharList_ne_nil sep rest)
      | cons g gs =>
        rw [hsp] at ih
        simp only [List.headD_cons] at ih
        have hc : (!(c == sep)) = true := by simp [h]
        simp [List.takeWhile_cons, hc, ih]

/-- The head of a Go split is the prefix before the first separator. -/
theorem goSplit_headD (s : String) (sep : Char) :
    (goSplit s sep).headD "" = String.mk (s.toList.takeWhile (fun c => !(c == sep))) := by
  unfold goSplit
  cases hsp : splitCharList sep s.toList with
  | nil => exact absurd hsp (splitCharList_ne_nil sep s.toList)
  | cons g gs =>
    have := splitCharList_head sep s.toList
    rw [hsp] at this
    simp only [List.headD_cons] at this
    simp [this]

/-! ## Lemmas about string append -/

theorem strAppend_assoc (a b c : String) : a ++ b ++ c = a ++ (b ++ c) := by
  apply String.ext
  simp [String.data_append, List.append_assoc]

theorem strAppend_ne_empty_left (a b : String) (h : a ≠ "") : a ++ b ≠ "" := by
  intro he
  apply h
  apply String.ext
  have := congrArg String.data he
  simp only [String.data_append] at this
  rcases List.append_eq_nil.mp this with ⟨h1, _⟩
  simp [h1]

/-! ## Lemmas about the parameter-joining fold of `buildFinalURL` -/

/-- Successive joining of parts into an accumulator, the recursion scheme of
the `additionalParams` loop. -/
def joinInto (acc : String) : List String → String
  | [] => acc
  | x :: xs => joinInto (if acc == "" then x else acc ++ "&" ++ x) xs

theorem foldl_join_eq_joinInto (p : String → Bool) (l : List String) (acc : String) :
    l.foldl (fun acc part =>
        if p part then (if acc == "" then part else acc ++ "&" ++ part) else acc) acc =
      joinInto acc (l.filter p) := by
  induction l generalizing acc with
  | nil => rfl
  | cons x xs ih =>
    cases h : p x with
    | true =>
      simp only [List.foldl_cons, h, if_true, List.filter_cons_of_pos h]
      rw [joinInto]
      exact ih _
    | false =>
      have hf : List.filter p (x :: xs) = List.filter p xs := by simp [h]
      simp only [List.foldl_cons, h, Bool.false_eq_true, if_false, hf]
      exact ih _

theorem joinInto_of_ne_empty (xs : List String) (acc : String) (h : acc ≠ "") :
    joinInto acc xs = joinAmp (acc :: xs) := by
  induction xs generalizing acc with
  | nil => simp [joinInto, joinAmp]
  | cons x xs ih =>
    have hne : (acc == "") = false := by simp [h]
    simp only [joinInto, hne, Bool.false_eq_true, if_false]
    rw [ih _ (strAppend_ne_empty_left _ _ (strAppend_ne_empty_left _ _ h))]
    cases xs with
    | nil => simp [joinAmp, strAppend_assoc]
    | cons y ys => simp [joinAmp, strAppend_assoc]

theorem joinInto_empty (xs : List String) (hxs : ∀ x ∈ xs, x ≠ "") :
    joinInto "" xs = joinAmp xs := by
  cases xs with
  | nil => rfl
  | cons x xs =>
    simp only [joinInto, if_pos rfl]
    exact joinInto_of_ne_empty xs x (hxs x (List.mem_cons_self x xs))

theorem joinAmp_ne_empty (x : String) (xs : List String) (h : x ≠ "") :
    joinAmp (x :: xs) ≠ "" := by
  cases xs with
  | nil => simpa [joinAmp] using h
  | cons y ys =>
    simp only [joinAmp]
    exact strAppend_ne_empty_left _ _ (strAppend_ne_empty_left _ _ h)

/-- Variant of `goSplit_headD` in `head?.getD` form. -/
theorem goSplit_head_getD (s : String) (sep : Char) :
    (goSplit s sep).head?.getD "" = String.mk (s.toList.takeWhile (fun c => !(c == sep))) := by
  have h := goSplit_headD s sep
  cases hg : goSplit s sep with
  | nil => exact absurd (congrArg List.length hg) (by simp [goSplit, splitCharList_ne_nil])
  | cons x xs =>
    rw [hg] at h
    simpa using h

/-- With trust-proxy off, the derived client IP is the peer address up to
the first colon. -/
theorem getClientIP_false (r : Request) :
    getClientIP false r = remoteIPBeforeColon r.remoteAddr := by
  show (goSplit r.remoteAddr ':').headD "" = _
  rw [goSplit_headD]
  rfl

/-! ## Claim theorems -/

/-- C2, counterexample: on the request with raw query `xtarget=foo` and path
`/proxy`, no parameter is literally named `target`, so the claimed resolver
yields the empty string, yet the code's raw scan extracts `foo`. -/
theorem argonC2_counterexample :
    parseTargetURL reqScan = "foo" ∧ specResolveTarget reqScan = "" ∧
    parseTargetURL reqScan ≠ specResolveTarget reqScan := by decide

/-- C2, amended: the Target Resolver extracts the substring between the
first occurrence of `target=` and the next ampersand (or end of string)
whenever the raw query string contains the substring `target=` anywhere —
a raw scan, not a check for a parameter named `target`; otherwise, if the
path begins with `/proxy/`, everything after that prefix; otherwise the
empty string (meaning show usage). -/
theorem argonC2_raw_scan (r : Request) :
    parseTargetURL r = amendedResolveTarget r := by
  unfold parseTargetURL amendedResolveTarget goContains
  cases h : goIndex r.rawQuery "target=" with
  | none => simp [h]
  | some i => simp [h]

/-- C4, counterexample: with the wildcard configured and a request carrying
no Origin header, the claim demands the (empty) Origin value be echoed, but
the code emits the configured literal `*`. -/
theorem argonC4_counterexample :
    headerGet reqRoot.headers "Origin" = "" ∧
    headerGet (addCORSHeaders "*" reqRoot []) "Access-Control-Allow-Origin" = "*" ∧
    specAllowOriginClaim "*" (headerGet reqRoot.headers "Origin") = "" ∧
    headerGet (addCORSHeaders "*" reqRoot []) "Access-Control-Allow-Origin" ≠
      specAllowOriginClaim "*" (headerGet reqRoot.headers "Origin") := by decide

/-- C4, amended: on every request on which CORS headers are set, the
Access-Control-Allow-Origin header equals the request's Origin header value
whenever that value is non-empty and the configured allowed-origin is `*`
or exactly equals it; otherwise it equals the configured literal. -/
theorem argonC4_allow_origin (allowed : String) (r : Request) (hs0 : Headers) :
    headerGet (addCORSHeaders allowed r hs0) "Access-Control-Allow-Origin" =
      specAllowOriginAmended allowed (headerGet r.headers "Origin") := by
  simp only [addCORSHeaders, specAllowOriginAmended]
  by_cases hc : (headerGet r.headers "Origin" != "" &&
      (allowed == "*" || allowed == headerGet r.headers "Origin")) = true
  · rw [if_pos hc]
    have hc' : headerGet r.headers "Origin" ≠ "" ∧
        (allowed = "*" ∨ allowed = headerGet r.headers "Origin") := by
      simpa using hc
    rw [if_pos hc']
    simp +decide [headerGet, headerGetValues_set]
  · rw [if_neg hc]
    have hc' : ¬(headerGet r.headers "Origin" ≠ "" ∧
        (allowed = "*" ∨ allowed = headerGet r.headers "Origin")) := by
      simpa using hc
    rw [if_neg hc']
    simp +decide [headerGet, headerGetValues_set]

/-- C8: with trust-forwarded-headers disabled, any two requests with the
same raw connection peer address — in particular two requests differing only
in their X-Forwarded-For and X-Real-IP headers — derive the same client IP,
that IP is the peer address up to the first colon, and no X-Real-IP value is
injected on the outbound request. -/
theorem argonC8_trust_off (r1 r2 : Request) (h : r1.remoteAddr = r2.remoteAddr) :
    getClientIP false r1 = getClientIP false r2 ∧
    getClientIP false r1 = remoteIPBeforeColon r1.remoteAddr ∧
    (copyRequestHeaders false r1).2 = none ∧
    (copyRequestHeaders false r2).2 = none := by
  refine ⟨?_, ?_, ?_, ?_⟩
  · rw [getClientIP_false, getClientIP_false, h]
  · exact getClientIP_false r1
  · simp [copyRequestHeaders]
  · simp [copyRequestHeaders]

/-- C8, witness at two concrete requests differing only in forwarded-IP
headers. -/
theorem argonC8_witness :
    getClientIP false reqForwarded =
      getClientIP false { reqForwarded with headers := [] } ∧
    getClientIP false reqForwarded = remoteIPBeforeColon reqForwarded.remoteAddr ∧
    (copyRequestHeaders false reqForwarded).2 = none ∧
    (copyRequestHeaders false { reqForwarded with headers := [] }).2 = none :=
  argonC8_trust_off reqForwarded { reqForwarded with headers := [] } rfl

/-- C10: an X-Real-IP header is injected on the outbound request exactly
when trust-forwarded-headers is enabled and the inbound X-Forwarded-For
value is non-empty, and the injected value is the leftmost comma-separated
element of X-Forwarded-For with surrounding whitespace trimmed — a function
of X-Forwarded-For alone, never of the inbound X-Real-IP value. -/
theorem argonC10_realip_injection (trust : Bool) (r : Request) :
    (copyRequestHeaders trust r).2 =
      if trust = true ∧ headerGet r.headers "X-Forwarded-For" ≠ "" then
        some (leftmostForwardedIP (headerGet r.headers "X-Forwarded-For"))
      else none := by
  unfold copyRequestHeaders getClientIP leftmostForwardedIP
  by_cases ht : trust = true
  · by_cases hx : headerGet r.headers "X-Forwarded-For" = ""
    · simp [ht, hx]
    · simp [ht, hx, goSplit_headD, goSplit_head_getD]
  · simp [ht]

/-- Value lists of the header map produced by `addCORSHeaders`. -/
theorem getValues_addCORS (a : String) (r : Request) (hs0 : Headers) (k : String) :
    headerGetValues (addCORSHeaders a r hs0) k =
      if keyEq "Vary" k then ["Origin"]
      else if keyEq "Access-Control-Allow-Credentials" k then ["true"]
      else if keyEq "Access-Control-Allow-Headers" k then ["*"]
      else if keyEq "Access-Control-Allow-Methods" k then
        ["GET, POST, OPTIONS, PUT, DELETE, HEAD, PATCH"]
      else if keyEq "Access-Control-Allow-Origin" k then
        [if headerGet r.headers "Origin" != "" &&
            (a == "*" || a == headerGet r.headers "Origin") then
          headerGet r.headers "Origin" else a]
      else headerGetValues hs0 k := by
  simp only [addCORSHeaders]
  by_cases hc : (headerGet r.headers "Origin" != "" &&
      (a == "*" || a == headerGet r.headers "Origin")) = true
  · simp [hc, headerGetValues_set]
  · simp [hc, headerGetValues_set]

/-- Reading a name after `headerSet` in `headerGet` form. -/
theorem headerGet_set (hs : Headers) (k v k' : String) :
    headerGet (headerSet hs k v) k' = if keyEq k k' then v else headerGet hs k' := by
  unfold headerGet
  rw [headerGetValues_set]
  by_cases h : keyEq k k' <;> simp [h]

/-- First values of the header map produced by `addCORSHeaders`. -/
theorem headerGet_addCORS (a : String) (r : Request) (hs0 : Headers) (k : String) :
    headerGet (addCORSHeaders a r hs0) k =
      if keyEq "Vary" k then "Origin"
      else if keyEq "Access-Control-Allow-Credentials" k then "true"
      else if keyEq "Access-Control-Allow-Headers" k then "*"
      else if keyEq "Access-Control-Allow-Methods" k then
        "GET, POST, OPTIONS, PUT, DELETE, HEAD, PATCH"
      else if keyEq "Access-Control-Allow-Origin" k then
        (if headerGet r.headers "Origin" != "" &&
            (a == "*" || a == headerGet r.headers "Origin") then
          headerGet r.headers "Origin" else a)
      else headerGet hs0 k := by
  show (headerGetValues (addCORSHeaders a r hs0) k).headD "" = _
  rw [getValues_addCORS]
  split_ifs <;> simp [headerGet]

/-- The CORS annotator always produces the five always-set headers. -/
theorem hasCORS_addCORS (a : String) (r : Request) (hs0 : Headers) :
    hasCORSHeaders (addCORSHeaders a r hs0) = true := by
  simp +decide [hasCORSHeaders, getValues_addCORS]

/-- Preflight responses carry the five always-set CORS headers. -/
theorem handlePreflight_hasCORS (cfg : Config) (r : Request) :
    hasCORSHeaders (handlePreflight cfg r).headers = true := by
  simp only [handlePreflight, hasCORSHeaders]
  by_cases h1 : headerGet r.headers "Access-Control-Request-Method" = "" <;>
  by_cases h2 : headerGet r.headers "Access-Control-Request-Headers" = "" <;>
    simp +decide [h1, h2, headerGetValues_set, getValues_addCORS]

/-- Preflight responses carry the max-age header. -/
theorem handlePreflight_maxAge (cfg : Config) (r : Request) :
    headerGet (handlePreflight cfg r).headers "Access-Control-Max-Age" = "86400" := by
  simp only [handlePreflight, headerGet]
  simp +decide [headerGetValues_set]

/-- C5: an OPTIONS request to the proxy handler never reaches the upstream
dispatcher and always yields status 204 with no body, the five preflight
CORS headers, and an Access-Control-Max-Age header. -/
theorem argonC5_preflight (cfg : Config) (ok : Bool) (disp : DispatchResult)
    (r : Request) (h : r.method = "OPTIONS") :
    (handleProxy cfg ok disp r).dispatched = none ∧
    (handleProxy cfg ok disp r).response.status = 204 ∧
    (handleProxy cfg ok disp r).response.body = "" ∧
    hasCORSHeaders (handleProxy cfg ok disp r).response.headers = true ∧
    headerGet (handleProxy cfg ok disp r).response.headers
      "Access-Control-Max-Age" = "86400" := by
  have hp : handleProxy cfg ok disp r =
      { response := handlePreflight cfg r, dispatched := none } := by
    simp [handleProxy, h]
  rw [hp]
  exact ⟨rfl, rfl, rfl, handlePreflight_hasCORS cfg r, handlePreflight_maxAge cfg r⟩

/-- C5, witness at a concrete OPTIONS request. -/
theorem argonC5_witness :
    (handleProxy cfgDefault true (.err "e") reqPurge).dispatched = none ∧
    (handleProxy cfgDefault true (.err "e") reqPurge).response.status = 204 ∧
    (handleProxy cfgDefault true (.err "e") reqPurge).response.body = "" ∧
    hasCORSHeaders (handleProxy cfgDefault true (.err "e") reqPurge).response.headers = true ∧
    headerGet (handleProxy cfgDefault true (.err "e") reqPurge).response.headers
      "Access-Control-Max-Age" = "86400" :=
  argonC5_preflight cfgDefault true (.err "e") reqPurge rfl

/-- C6, counterexample: a preflight request whose stated method is `PURGE`
does not get that method echoed back — the response advertises the fixed
method list instead. -/
theorem argonC6_counterexample :
    headerGet reqPurge.headers "Access-Control-Request-Method" = "PURGE" ∧
    headerGet (handlePreflight cfgDefault reqPurge).headers
      "Access-Control-Allow-Methods" ≠ "PURGE" := by decide

/-- C6, amended: on preflight, Access-Control-Allow-Methods is always the
fixed list `GET, POST, OPTIONS, PUT, DELETE, HEAD, PATCH` — the requested
method is not echoed; the requested headers, when present, are echoed back
in Access-Control-Allow-Headers, and otherwise a fixed default list is
sent. -/
theorem argonC6_preflight_echo (cfg : Config) (r : Request) :
    headerGet (handlePreflight cfg r).headers "Access-Control-Allow-Methods" =
      "GET, POST, OPTIONS, PUT, DELETE, HEAD, PATCH" ∧
    (headerGet r.headers "Access-Control-Request-Headers" ≠ "" →
      headerGet (handlePreflight cfg r).headers "Access-Control-Allow-Headers" =
        headerGet r.headers "Access-Control-Request-Headers") ∧
    (headerGet r.headers "Access-Control-Request-Headers" = "" →
      headerGet (handlePreflight cfg r).headers "Access-Control-Allow-Headers" =
        "Content-Type, Authorization, X-Requested-With") := by
  refine ⟨?_, ?_, ?_⟩
  · simp only [handlePreflight]
    by_cases h1 : headerGet r.headers "Access-Control-Request-Method" = "" <;>
    by_cases h2 : headerGet r.headers "Access-Control-Request-Headers" = "" <;>
      simp +decide [h1, h2, headerGet_set, headerGet_addCORS]
  · intro hne
    simp only [handlePreflight]
    by_cases h1 : headerGet r.headers "Access-Control-Request-Method" = "" <;>
      simp +decide [h1, hne, headerGet_set]
  · intro heq
    simp only [handlePreflight]
    by_cases h1 : headerGet r.headers "Access-Control-Request-Method" = "" <;>
      simp +decide [h1, heq, headerGet_set]

/-- C6, witness at concrete preflight requests with and without requested
headers. -/
theorem argonC6_witness :
    headerGet (handlePreflight cfgDefault reqPreflightFull).headers
      "Access-Control-Allow-Methods" = "GET, POST, OPTIONS, PUT, DELETE, HEAD, PATCH" ∧
    headerGet (handlePreflight cfgDefault reqPreflightFull).headers
      "Access-Control-Allow-Headers" = "X-Custom" ∧
    headerGet (handlePreflight cfgDefault reqNoTarget).headers
      "Access-Control-Allow-Headers" = "Content-Type, Authorization, X-Requested-With" := by
  refine ⟨(argonC6_preflight_echo cfgDefault reqPreflightFull).1, ?_, ?_⟩
  · have h := (argonC6_preflight_echo cfgDefault reqPreflightFull).2.1 (by decide)
    exact h.trans (by decide)
  · exact (argonC6_preflight_echo cfgDefault reqNoTarget).2.2 (by decide)

/-- Adding a header value preserves the presence of the CORS headers. -/
theorem hasCORS_headerAdd (hs : Headers) (k v : String)
    (h : hasCORSHeaders hs = true) : hasCORSHeaders (headerAdd hs k v) = true := by
  simp only [hasCORSHeaders, Bool.and_eq_true] at h ⊢
  obtain ⟨⟨⟨⟨h1, h2⟩, h3⟩, h4⟩, h5⟩ := h
  refine ⟨⟨⟨⟨?_, ?_⟩, ?_⟩, ?_⟩, ?_⟩ <;> rw [headerGetValues_add]
  · by_cases hk : keyEq k "Access-Control-Allow-Origin" <;> simp_all
  · by_cases hk : keyEq k "Access-Control-Allow-Methods" <;> simp_all
  · by_cases hk : keyEq k "Access-Control-Allow-Headers" <;> simp_all
  · by_cases hk : keyEq k "Access-Control-Allow-Credentials" <;> simp_all
  · by_cases hk : keyEq k "Vary" <;> simp_all

/-- Folding additions of a value list preserves the CORS headers. -/
theorem hasCORS_foldAdd (vs : List String) (k0 : String) (hs : Headers)
    (h : hasCORSHeaders hs = true) :
    hasCORSHeaders (vs.foldl (fun acc v => headerAdd acc k0 v) hs) = true := by
  induction vs generalizing hs with
  | nil => exact h
  | cons v vs ih =>
    simp only [List.foldl_cons]
    exact ih _ (hasCORS_headerAdd _ _ _ h)

/-- The response-header relay loop of `processProxyResponse` preserves the
CORS headers. -/
theorem hasCORS_relayLoop (entries : List (String × List String)) (hs : Headers)
    (h : hasCORSHeaders hs = true) :
    hasCORSHeaders (entries.foldl
      (fun hs kv =>
        if !(hasPrefixGo (goToLower kv.1) "access-control-") then
          kv.2.foldl (fun hs v => headerAdd hs kv.1 v) hs
        else hs) hs) = true := by
  induction entries generalizing hs with
  | nil => exact h
  | cons e rest ih =>
    simp only [List.foldl_cons]
    by_cases he : (!(hasPrefixGo (goToLower e.1) "access-control-")) = true
    · rw [if_pos he]
      exact ih _ (hasCORS_foldAdd _ _ _ h)
    · rw [if_neg he]
      exact ih _ h

/-- C3, counterexample: the root usage page responds 200 without any CORS
header, refuting the claim that every route carries them. -/
theorem argonC3_counterexample :
    (handleRoot reqRoot).status = 200 ∧
    headerGetValues (handleRoot reqRoot).headers "Access-Control-Allow-Origin" = [] ∧
    hasCORSHeaders (handleRoot reqRoot).headers = false := by decide

/-- C3, amended: proxied responses, preflight responses and successfully
served named config files include the headers Access-Control-Allow-Origin,
-Allow-Methods, -Allow-Headers, -Allow-Credentials and Vary: Origin; the
usage pages, the config-file listing, 404 responses and the proxy's own
error responses do not include them. -/
theorem argonC3_cors_headers (cfg : Config) (r : Request) (resp : Response)
    (fsys : ConfigFS) (sect msg : String) (code : Nat) :
    hasCORSHeaders (processProxyResponse cfg r resp).headers = true ∧
    hasCORSHeaders (handlePreflight cfg r).headers = true ∧
    (∀ content, (configFilename r == "") = false →
      fsys.lookup (configFilename r) = some content →
      hasCORSHeaders (handleConfigFiles cfg fsys r).headers = true) ∧
    hasCORSHeaders (displayUsage r sect).headers = false ∧
    hasCORSHeaders (listConfigFiles fsys).headers = false ∧
    hasCORSHeaders (httpError msg code).headers = false := by
  refine ⟨?_, handlePreflight_hasCORS cfg r, ?_, rfl, rfl, rfl⟩
  · simp only [processProxyResponse]
    exact hasCORS_relayLoop _ _ (hasCORS_addCORS _ _ _)
  · intro content hfn hlk
    simp only [handleConfigFiles, hfn, Bool.false_eq_true, if_false, hlk]
    simp +decide [hasCORSHeaders, headerGetValues_set, getValues_addCORS]

/-- C3, witness at a concrete request, upstream response and config file. -/
theorem argonC3_witness :
    hasCORSHeaders (processProxyResponse cfgDefault reqConfig
      { status := 200, headers := [], body := "" }).headers = true ∧
    hasCORSHeaders (handlePreflight cfgDefault reqConfig).headers = true ∧
    hasCORSHeaders (handleConfigFiles cfgDefault fsNginx reqConfig).headers = true ∧
    hasCORSHeaders (displayUsage reqConfig "all").headers = false ∧
    hasCORSHeaders (listConfigFiles fsNginx).headers = false ∧
    hasCORSHeaders (httpError "m" 404).headers = false := by
  have h := argonC3_cors_headers cfgDefault reqConfig
    { status := 200, headers := [], body := "" } fsNginx "all" "m" 404
  exact ⟨h.1, h.2.1, h.2.2.1 "sample" (by decide) (by decide),
    h.2.2.2.1, h.2.2.2.2.1, h.2.2.2.2.2⟩

/-- Membership in a value list is preserved by any fold of additions. -/
theorem mem_getValues_foldAdd_any (vs : List String) (k0 : String) (hs : Headers)
    (k w : String) (h : w ∈ headerGetValues hs k) :
    w ∈ headerGetValues (vs.foldl (fun acc v => headerAdd acc k0 v) hs) k := by
  induction vs generalizing hs with
  | nil => exact h
  | cons v vs ih =>
    simp only [List.foldl_cons]
    exact ih _ (mem_headerGetValues_add _ _ _ _ _ h)

/-- A denied name stays absent through the header-copy loop. -/
theorem getValues_copyLoop_denied (entries : List (String × List String))
    (acc : Headers) (k : String) (hk : shouldSkipHeader k = true)
    (h : headerGetValues acc k = []) :
    headerGetValues (entries.foldl
      (fun acc kv =>
        if shouldSkipHeader kv.1 then acc
        else kv.2.foldl (fun acc v => headerAdd acc kv.1 v) acc) acc) k = [] := by
  induction entries generalizing acc with
  | nil => exact h
  | cons e rest ih =>
    simp only [List.foldl_cons]
    by_cases hskip : shouldSkipHeader e.1 = true
    · rw [if_pos hskip]
      exact ih _ h
    · rw [if_neg hskip]
      apply ih
      rw [headerGetValues_foldAdd_other]
      · exact h
      · rw [keyEq_false_lower]
        intro hl
        exact hskip ((shouldSkipHeader_congr e.1 k hl).trans hk)

/-- Membership in a value list is preserved by the header-copy loop. -/
theorem mem_getValues_copyLoop_mono (entries : List (String × List String))
    (acc : Headers) (k w : String) (h : w ∈ headerGetValues acc k) :
    w ∈ headerGetValues (entries.foldl
      (fun acc kv =>
        if shouldSkipHeader kv.1 then acc
        else kv.2.foldl (fun acc v => headerAdd acc kv.1 v) acc) acc) k := by
  induction entries generalizing acc with
  | nil => exact h
  | cons e rest ih =>
    simp only [List.foldl_cons]
    by_cases hskip : shouldSkipHeader e.1 = true
    · rw [if_pos hskip]
      exact ih _ h
    · rw [if_neg hskip]
      exact ih _ (mem_getValues_foldAdd_any _ _ _ _ _ h)

/-- Every value of a non-skipped inbound entry survives the copy loop. -/
theorem mem_getValues_copyLoop (entries : List (String × List String))
    (acc : Headers) (kv : String × List String) (v : String)
    (hin : kv ∈ entries) (hskip : shouldSkipHeader kv.1 = false) (hv : v ∈ kv.2) :
    v ∈ headerGetValues (entries.foldl
      (fun acc kv =>
        if shouldSkipHeader kv.1 then acc
        else kv.2.foldl (fun acc v => headerAdd acc kv.1 v) acc) acc) kv.1 := by
  induction entries generalizing acc with
  | nil => cases hin
  | cons e rest ih =>
    simp only [List.foldl_cons]
    rcases List.mem_cons.mp hin with rfl | hmem
    · rw [if_neg (by simp [hskip])]
      exact mem_getValues_copyLoop_mono rest _ _ _
        (mem_headerGetValues_foldAdd_self _ _ _ _ hv)
    · by_cases hskip2 : shouldSkipHeader e.1 = true
      · rw [if_pos hskip2]
        exact ih _ hmem
      · rw [if_neg hskip2]
        exact ih _ hmem

/-- C7, counterexample: with trust-proxy enabled, the inbound X-Real-IP
header is outside the deny-set yet its value is not forwarded — it is
replaced by the IP derived from X-Forwarded-For — refuting the unqualified
allow-by-default claim. -/
theorem argonC7_counterexample :
    inDenySet "X-Real-IP" = false ∧
    ("X-Real-IP", ["1.2.3.4"]) ∈ reqForwarded.headers ∧
    ¬ "1.2.3.4" ∈ headerGetValues (copyRequestHeaders true reqForwarded).1 "X-Real-IP" := by
  decide

/-- C7, amended: the outbound header set never contains Connection, Host,
X-Forwarded-Host, X-Forwarded-Proto, Content-Length (compared
case-insensitively) or any `x-nginx`-prefixed name; every inbound header
outside this deny-set is forwarded with all of its values, except that when
trust-forwarded-headers is enabled and X-Forwarded-For is non-empty the
inbound X-Real-IP values are replaced by the derived client IP. -/
theorem argonC7_header_policy (trust : Bool) (r : Request) :
    (∀ k, inDenySet k = true →
      headerGetValues (copyRequestHeaders trust r).1 k = []) ∧
    (∀ kv v, kv ∈ r.headers → inDenySet kv.1 = false → v ∈ kv.2 →
      (trust = false ∨ headerGet r.headers "X-Forwarded-For" = "" ∨
        keyEq kv.1 "X-Real-IP" = false) →
      v ∈ headerGetValues (copyRequestHeaders trust r).1 kv.1) := by
  constructor
  · intro k hk
    rw [inDenySet_eq_shouldSkipHeader] at hk
    unfold copyRequestHeaders
    by_cases hc : (trust && headerGet r.headers "X-Forwarded-For" != "") = true
    · simp only [hc, if_true]
      rw [headerGetValues_set]
      have hne : keyEq "X-Real-IP" k = false := by
        rw [keyEq_false_lower]
        intro hl
        have hcongr := shouldSkipHeader_congr "X-Real-IP" k hl
        rw [hk] at hcongr
        exact absurd hcongr (by decide)
      rw [hne]
      simp only [Bool.false_eq_true, if_false]
      exact getValues_copyLoop_denied r.headers [] k hk rfl
    · simp only [hc, Bool.false_eq_true, if_false]
      exact getValues_copyLoop_denied r.headers [] k hk rfl
  · intro kv v hin hden hv hside
    rw [inDenySet_eq_shouldSkipHeader] at hden
    unfold copyRequestHeaders
    by_cases hc : (trust && headerGet r.headers "X-Forwarded-For" != "") = true
    · simp only [hc, if_true]
      rw [headerGetValues_set]
      have hne : keyEq kv.1 "X-Real-IP" = false := by
        rcases hside with h | h | h
        · exfalso
          rw [h] at hc
          simp at hc
        · exfalso
          rw [Bool.and_eq_true] at hc
          rw [h] at hc
          simp at hc
        · exact h
      have hne' : keyEq "X-Real-IP" kv.1 = false := by
        rw [keyEq_false_lower] at hne ⊢
        exact fun hl => hne hl.symm
      rw [hne']
      simp only [Bool.false_eq_true, if_false]
      exact mem_getValues_copyLoop r.headers [] kv v hin hden hv
    · simp only [hc, Bool.false_eq_true, if_false]
      exact mem_getValues_copyLoop r.headers [] kv v hin hden hv

/-- C7, witness: a denied name is absent and a forwarded value is present
on a concrete outbound header set. -/
theorem argonC7_witness :
    headerGetValues (copyRequestHeaders true reqForwarded).1 "Host" = [] ∧
    "5.6.7.8" ∈ headerGetValues (copyRequestHeaders true reqForwarded).1 "X-Forwarded-For" := by
  have h := argonC7_header_policy true reqForwarded
  exact ⟨h.1 "Host" (by decide),
    h.2 ("X-Forwarded-For", ["5.6.7.8"]) "5.6.7.8" (by decide) (by decide)
      (by decide) (Or.inr (Or.inr (by decide)))⟩

/-- C9: the proxy handler maps each failure kind to exactly one
client-visible result at the point where it occurs: no resolvable target
yields the usage text with status 200 and no dispatch; a percent-decoding
failure yields the 400 plain-text error and no dispatch; an outbound
construction failure yields the 500 error and no dispatch; a dispatch
failure yields the 502 error whose message includes the underlying cause,
after a single dispatch; and any received upstream response is relayed with
its own status and body. -/
theorem argonC9_error_mapping (cfg : Config) (ok : Bool) (disp : DispatchResult)
    (r : Request) (hm : r.method ≠ "OPTIONS") :
    (parseTargetURL r = "" →
      (handleProxy cfg ok disp r).response = displayUsage r "proxy" ∧
      (handleProxy cfg ok disp r).response.status = 200 ∧
      (handleProxy cfg ok disp r).dispatched = none) ∧
    (parseTargetURL r ≠ "" → queryUnescape (parseTargetURL r) = none →
      (handleProxy cfg ok disp r).response = httpError "Invalid URL encoding in target" 400 ∧
      (handleProxy cfg ok disp r).dispatched = none) ∧
    (parseTargetURL r ≠ "" → (queryUnescape (parseTargetURL r)).isSome = true →
      ok = false →
      (handleProxy cfg ok disp r).response = httpError "Error creating proxy request" 500 ∧
      (handleProxy cfg ok disp r).dispatched = none) ∧
    (∀ msg, parseTargetURL r ≠ "" → (queryUnescape (parseTargetURL r)).isSome = true →
      ok = true → disp = .err msg →
      (handleProxy cfg ok disp r).response =
        httpError ("Error proxying request: " ++ msg) 502 ∧
      ((handleProxy cfg ok disp r).dispatched).isSome = true) ∧
    (∀ resp, parseTargetURL r ≠ "" → (queryUnescape (parseTargetURL r)).isSome = true →
      ok = true → disp = .ok resp →
      (handleProxy cfg ok disp r).response.status = resp.status ∧
      (handleProxy cfg ok disp r).response.body = resp.body ∧
      ((handleProxy cfg ok disp r).dispatched).isSome = true) := by
  refine ⟨?_, ?_, ?_, ?_, ?_⟩
  · intro ht
    simp [handleProxy, hm, ht, displayUsage]
  · intro ht hq
    simp [handleProxy, hm, ht, processProxyRequest, hq]
  · intro ht hq hok
    obtain ⟨d, hd⟩ := Option.isSome_iff_exists.mp hq
    subst hok
    simp [handleProxy, hm, ht, processProxyRequest, hd]
  · intro msg ht hq hok hdisp
    obtain ⟨d, hd⟩ := Option.isSome_iff_exists.mp hq
    subst hok; subst hdisp
    simp [handleProxy, hm, ht, processProxyRequest, hd]
  · intro resp ht hq hok hdisp
    obtain ⟨d, hd⟩ := Option.isSome_iff_exists.mp hq
    subst hok; subst hdisp
    simp [handleProxy, hm, ht, processProxyRequest, hd, processProxyResponse]

/-- C9, witness: the five outcomes at concrete inputs. -/
theorem argonC9_witness :
    (handleProxy cfgDefault true (.err "e") reqNoTarget).response =
      displayUsage reqNoTarget "proxy" ∧
    (handleProxy cfgDefault true (.err "e") reqNoTarget).dispatched = none ∧
    (handleProxy cfgDefault true (.err "e") reqBadEncoding).response =
      httpError "Invalid URL encoding in target" 400 ∧
    (handleProxy cfgDefault true (.err "e") reqBadEncoding).dispatched = none ∧
    (handleProxy cfgDefault false (.err "e") reqTargetExtra).response =
      httpError "Error creating proxy request" 500 ∧
    (handleProxy cfgDefault true (.err "no such host") reqTargetExtra).response =
      httpError "Error proxying request: no such host" 502 ∧
    (handleProxy cfgDefault true
      (.ok { status := 503, headers := [], body := "b" }) reqTargetExtra).response.status = 503 := by
  refine ⟨?_, ?_, ?_, ?_, ?_, ?_, ?_⟩
  · exact ((argonC9_error_mapping cfgDefault true (.err "e") reqNoTarget
      (by decide)).1 (by decide)).1
  · exact ((argonC9_error_mapping cfgDefault true (.err "e") reqNoTarget
      (by decide)).1 (by decide)).2.2
  · exact ((argonC9_error_mapping cfgDefault true (.err "e") reqBadEncoding
      (by decide)).2.1 (by decide) (by decide)).1
  · exact ((argonC9_error_mapping cfgDefault true (.err "e") reqBadEncoding
      (by decide)).2.1 (by decide) (by decide)).2
  · exact ((argonC9_error_mapping cfgDefault false (.err "e") reqTargetExtra
      (by decide)).2.2.1 (by decide) (by decide) rfl).1
  · exact ((argonC9_error_mapping cfgDefault true (.err "no such host") reqTargetExtra
      (by decide)).2.2.2.1 "no such host" (by decide) (by decide) rfl rfl).1
  · exact ((argonC9_error_mapping cfgDefault true
      (.ok { status := 503, headers := [], body := "b" }) reqTargetExtra
      (by decide)).2.2.2.2 { status := 503, headers := [], body := "b" }
      (by decide) (by decide) rfl rfl).1

/-- The code's scheme normalisation equals the claim's. -/
theorem normalize_scheme_eq (dec : String) :
    (if !(hasPrefixGo dec "http://") && !(hasPrefixGo dec "https://") then
      "https://" ++ dec else dec) = specNormalizedTarget dec := by
  unfold specNormalizedTarget
  by_cases h1 : hasPrefixGo dec "http://" <;>
  by_cases h2 : hasPrefixGo dec "https://" <;> simp [h1, h2]

/-- Lemma: `buildFinalURL` computes exactly the claim's parameter re-attachment. -/
theorem buildFinalURL_eq_spec (r : Request) (D : String) :
    buildFinalURL r D =
      if specRemainingParams r.rawQuery = [] then D
      else D ++ (if goContains D "?" then "&" else "?") ++
        joinAmp (specRemainingParams r.rawQuery) := by
  unfold buildFinalURL specRemainingParams
  rw [foldl_join_eq_joinInto (fun part => !(hasPrefixGo part "target=") && part != "")]
  have hfil : (goSplit r.rawQuery '&').filter
        (fun part => !(hasPrefixGo part "target=") && part != "") =
      (goSplit r.rawQuery '&').filter
        (fun p => p != "" && !(hasPrefixGo p "target=")) := by
    apply List.filter_congr
    intro x _
    exact Bool.and_comm _ _
  rw [hfil]
  cases hps : (goSplit r.rawQuery '&').filter
      (fun p => p != "" && !(hasPrefixGo p "target=")) with
  | nil => simp [joinInto]
  | cons x xs =>
    have hall : ∀ y ∈ x :: xs, y ≠ "" := by
      intro y hy
      have hyf : y ∈ (goSplit r.rawQuery '&').filter
          (fun p => p != "" && !(hasPrefixGo p "target=")) := hps ▸ hy
      have := (List.mem_filter.mp hyf).2
      simp only [Bool.and_eq_true, bne_iff_ne] at this
      exact this.1
    rw [joinInto_empty _ hall]
    have hne : joinAmp (x :: xs) ≠ "" :=
      joinAmp_ne_empty x xs (hall x (List.mem_cons_self x xs))
    have hb : (joinAmp (x :: xs) != "") = true := by simpa using hne
    simp only [hb, if_true, List.cons_ne_self]
    by_cases hq : goContains D "?" = true <;>
      simp [hq, strAppend_assoc]

/-- C1: whenever a non-OPTIONS proxy request leads to an upstream dispatch,
the dispatched URL is the percent-decoded target with `https://` prepended
when no scheme prefix is present, followed by the inbound raw query's parts
minus empty parts and `target=`-prefixed parts, joined with ampersands and
attached with `&` when the decoded target already contains `?`, else with
`?`, and the decoded target alone when no parts remain. -/
theorem argonC1_dispatched_url (cfg : Config) (ok : Bool) (disp : DispatchResult)
    (r : Request) (out : OutboundRequest) (hm : r.method ≠ "OPTIONS")
    (hd : (handleProxy cfg ok disp r).dispatched = some out) :
    specDispatchedURL r.rawQuery (parseTargetURL r) = some out.url := by
  have hmb : (r.method == "OPTIONS") = false := by simpa using hm
  rw [handleProxy] at hd
  rw [hmb] at hd
  simp only [Bool.false_eq_true, if_false] at hd
  by_cases ht : (parseTargetURL r == "") = true
  · rw [if_pos ht] at hd
    cases hd
  · rw [if_neg ht] at hd
    rw [processProxyRequest] at hd
    cases hq : queryUnescape (parseTargetURL r) with
    | none =>
      rw [hq] at hd
      cases hd
    | some dec =>
      rw [hq] at hd
      cases hok : ok with
      | false =>
        subst hok
        simp at hd
      | true =>
        subst hok
        simp only [Bool.not_true, Bool.false_eq_true, if_false] at hd
        have hurl : out.url =
            buildFinalURL r
              (if !(hasPrefixGo dec "http://") && !(hasPrefixGo dec "https://") then
                "https://" ++ dec else dec) := by
          cases disp with
          | err msg =>
            simp only at hd
            cases hd
            rfl
          | ok resp =>
            simp only at hd
            cases hd
            rfl
        rw [hurl, normalize_scheme_eq, buildFinalURL_eq_spec]
        unfold specDispatchedURL
        rw [hq]
        simp

/-- C1, witness: a concrete request with an encoded target and one extra
parameter dispatches to the decoded target with the parameter attached. -/
theorem argonC1_witness :
    specDispatchedURL reqTargetExtra.rawQuery (parseTargetURL reqTargetExtra) =
      some "http://x?extra=1" := by
  have h := argonC1_dispatched_url cfgDefault true
    (.ok { status := 200, headers := [], body := "" }) reqTargetExtra
    { method := "GET", url := "http://x?extra=1", headers := [],
      host := "x?extra=1", body := "" }
    (by decide) (by decide)
  simpa using h

end ArgonProxy
